import Mathlib

/-!
Verification of the decision/orchestration core of `go-unexport`
(`unexport.go`): symbol collection, candidate filtering, the
exported-to-unexported name transform, the rename invoker and the
error classifier.

Go strings are modelled at the byte level (`GoString := List Nat`),
because the name transform slices the string by byte index; UTF-8
decoding/encoding follows the Go `unicode/utf8` package's behaviour.
-/

/-- A Go string: a sequence of bytes. -/
abbrev GoString := List Nat

/-- Bytes of an ASCII Lean string literal, used to write the program's
string constants. -/
def asciiBytes (s : String) : GoString := s.toList.map Char.toNat

/-- The Unicode replacement character U+FFFD, Go's `utf8.RuneError`. -/
def runeError : Nat := 0xFFFD

/-- `utf8.DecodeRuneInString`: decode the first rune of a byte string,
returning the rune and the number of bytes consumed.  On the empty
string Go returns `(RuneError, 0)`; on malformed input `(RuneError, 1)`.
Mirrors Go's accept ranges (rejecting overlong encodings and
surrogates). -/
def utf8DecodeFirst : GoString → Nat × Nat
  | [] => (runeError, 0)
  | b :: rest =>
    if b < 0x80 then (b, 1)
    else if 0xC2 ≤ b ∧ b ≤ 0xDF then
      match rest with
      | b1 :: _ =>
        if 0x80 ≤ b1 ∧ b1 ≤ 0xBF then ((b - 0xC0) * 64 + (b1 - 0x80), 2)
        else (runeError, 1)
      | [] => (runeError, 1)
    else if 0xE0 ≤ b ∧ b ≤ 0xEF then
      match rest with
      | b1 :: b2 :: _ =>
        let lo1 := if b = 0xE0 then 0xA0 else 0x80
        let hi1 := if b = 0xED then 0x9F else 0xBF
        if lo1 ≤ b1 ∧ b1 ≤ hi1 ∧ 0x80 ≤ b2 ∧ b2 ≤ 0xBF then
          ((b - 0xE0) * 4096 + (b1 - 0x80) * 64 + (b2 - 0x80), 3)
        else (runeError, 1)
      | _ => (runeError, 1)
    else if 0xF0 ≤ b ∧ b ≤ 0xF4 then
      match rest with
      | b1 :: b2 :: b3 :: _ =>
        let lo1 := if b = 0xF0 then 0x90 else 0x80
        let hi1 := if b = 0xF4 then 0x8F else 0xBF
        if lo1 ≤ b1 ∧ b1 ≤ hi1 ∧ 0x80 ≤ b2 ∧ b2 ≤ 0xBF ∧ 0x80 ≤ b3 ∧ b3 ≤ 0xBF then
          ((b - 0xF0) * 262144 + (b1 - 0x80) * 4096 + (b2 - 0x80) * 64 + (b3 - 0x80), 4)
        else (runeError, 1)
      | _ => (runeError, 1)
    else (runeError, 1)

/-- Go's `string(r)` conversion: UTF-8 encoding of a rune; surrogates
and out-of-range values encode the replacement character. -/
def utf8Encode (r : Nat) : GoString :=
  if r < 0x80 then [r]
  else if r < 0x800 then [0xC0 + r / 64, 0x80 + r % 64]
  else if 0xD800 ≤ r ∧ r ≤ 0xDFFF then [0xEF, 0xBF, 0xBD]
  else if r < 0x10000 then [0xE0 + r / 4096, 0x80 + (r / 64) % 64, 0x80 + r % 64]
  else if r < 0x110000 then
    [0xF0 + r / 262144, 0x80 + (r / 4096) % 64, 0x80 + (r / 64) % 64, 0x80 + r % 64]
  else [0xEF, 0xBF, 0xBD]

/-- Partial model of `unicode.ToLower` (simple case mapping), faithful
on the ranges exercised here: ASCII `A`-`Z`, the Latin-1 uppercase
block `U+00C0`-`U+00DE` (excluding `×`), and the even code points of
`U+0100`-`U+0137` (Latin Extended-A pairs such as `Ā`/`ā`); identity
elsewhere. -/
def toLowerRune (r : Nat) : Nat :=
  if 0x41 ≤ r ∧ r ≤ 0x5A then r + 32
  else if 0xC0 ≤ r ∧ r ≤ 0xDE ∧ r ≠ 0xD7 then r + 32
  else if 0x100 ≤ r ∧ r ≤ 0x137 ∧ r % 2 = 0 then r + 1
  else r

/-- Partial model of `unicode.IsUpper`, faithful on the same ranges as
`toLowerRune`; `false` elsewhere. -/
def isUpperRune (r : Nat) : Bool :=
  (0x41 ≤ r ∧ r ≤ 0x5A) ∨ (0xC0 ≤ r ∧ r ≤ 0xDE ∧ r ≠ 0xD7) ∨
    (0x100 ≤ r ∧ r ≤ 0x136 ∧ r % 2 = 0)

/-- `toLowerFirst` from `unexport.go`:
```
func toLowerFirst(s string) string {
    for i, v := range s {
        return string(unicode.ToLower(v)) + s[i+1:]
    }
    return ""
}
```
The `range` loop runs at most one iteration, with `i = 0` (the byte
index of the first rune) and `v` the first decoded rune; the function
returns `string(ToLower(v)) + s[1:]`, slicing off exactly ONE byte. -/
def toLowerFirst (s : GoString) : GoString :=
  match s with
  | [] => []
  | _ :: rest₁ => utf8Encode (toLowerRune (utf8DecodeFirst s).1) ++ rest₁

/-- Modelled from the spec: the name transform as §4.3 states it —
lower-case exactly the first Unicode code point and keep the remainder
(everything after the full first code point) unchanged. -/
def specLowerFirst (s : GoString) : GoString :=
  match s with
  | [] => []
  | _ :: _ =>
    let d := utf8DecodeFirst s
    utf8Encode (toLowerRune d.1) ++ s.drop d.2

example : toLowerFirst (asciiBytes "Foo") = asciiBytes "foo" := by decide
example : toLowerFirst (asciiBytes "HTTPClient") = asciiBytes "hTTPClient" := by decide
example : toLowerFirst [0xC4, 0x80] = [0xC4, 0x81, 0x80] := by decide
example : specLowerFirst [0xC4, 0x80] = [0xC4, 0x81] := by decide

/-- `ast.IsExported` / `token.IsExported`: decode the first rune of the
name and test `unicode.IsUpper`.  On the empty name the decoded rune is
`RuneError`, which is not upper-case. -/
def isExported (name : GoString) : Bool :=
  isUpperRune (utf8DecodeFirst name).1

/-- An `*ast.Ident` as the linter uses it: its name and its `token.Pos`. -/
structure Ident where
  name : GoString
  pos : Nat
deriving DecidableEq, Repr

/-- A Go `map[string]bool` together with its nil-ness: `none` is the nil
map, `some keys` the map whose entries with value `true` are `keys`.
Indexing a nil map yields the zero value `false`. -/
def mapLookup (m : Option (List GoString)) (k : GoString) : Bool :=
  match m with
  | none => false
  | some keys => keys.contains k

/-- Spec forms inside an `ast.GenDecl`: `ast.ValueSpec` (several names),
`ast.TypeSpec` (one name), anything else (e.g. `ast.ImportSpec`) ignored. -/
inductive GoSpecNode where
  | valueSpec (names : List Ident)
  | typeSpec (name : Ident)
  | otherSpec
deriving Repr

/-- Top-level declaration forms distinguished by `collectFileSymbols`:
`ast.GenDecl` (with its specs), `ast.FuncDecl` (whose body may contain
further, nested declarations — never visited), anything else ignored. -/
inductive GoDecl where
  | genDecl (specs : List GoSpecNode)
  | funcDecl (name : Ident) (body : List GoDecl)
  | otherDecl
deriving Repr

/-- A parsed file of `pkg.Syntax`, already paired with its resolved
position filename (`fset.Position(f.Pos()).Filename`). -/
structure GoFile where
  filename : GoString
  decls : List GoDecl
deriving Repr

/-- A loaded package (one unit picked by `loadTargets`). -/
structure Pkg where
  files : List GoFile
deriving Repr

/-- The linter's state (`type linter struct`), minus the flag strings
and the `token.FileSet` (position resolution is modelled by the
`posStr` parameter of the invoker).  `success` is the
`map[string]string` of recorded renames, modelled as a partial map. -/
structure Linter where
  pkgs : List Pkg
  unexport : Option (List GoString)
  skip : Option (List GoString)
  symbols : List Ident
  success : GoString → Option GoString

/-- `(*linter).init`: allocate the three maps (all non-nil and empty). -/
def initLinter : Linter :=
  { pkgs := [], unexport := some [], skip := some [], symbols := [],
    success := fun _ => none }

/-- `strings.Split(s, ",")`: Go's split on a comma; `Split("", ",")`
is `[""]`, which `List.splitOn` matches (`splitOn` of `[]` is `[[]]`). -/
def goSplitComma (s : GoString) : List GoString :=
  s.splitOn 44

/-- Insert keys into a Go `map[string]bool` with value `true`
(assignment to a nil map would panic; after `init` the maps are non-nil). -/
def mapAddAll (m : Option (List GoString)) (ks : List GoString) :
    Option (List GoString) :=
  match m with
  | none => none
  | some keys => some (keys ++ ks)

/-- `(*linter).parseFlags`, given the two already-parsed flag strings:
every comma-separated piece of `-unexport` is added to `l.unexport`,
every piece of `-skip` to `l.skip`. -/
def parseFlags (unexportFlag skipFlag : GoString) (l : Linter) : Linter :=
  { l with
    unexport := mapAddAll l.unexport (goSplitComma unexportFlag),
    skip := mapAddAll l.skip (goSplitComma skipFlag) }

/-- `(*linter).collectSym`:
```
if l.unexport != nil || l.unexport[sym.Name] {
    if !l.skip[sym.Name] {
        l.symbols = append(l.symbols, sym)
    }
}
``` -/
def collectSym (l : Linter) (sym : Ident) : Linter :=
  if l.unexport.isSome || mapLookup l.unexport sym.name then
    if !mapLookup l.skip sym.name then
      { l with symbols := l.symbols ++ [sym] }
    else l
  else l

/-- One spec of a `GenDecl`, inside `collectFileSymbols`'s inner switch. -/
def collectSpecSyms (l : Linter) : GoSpecNode → Linter
  | .valueSpec names => names.foldl collectSym l
  | .typeSpec name => collectSym l name
  | .otherSpec => l

/-- One top-level declaration, inside `collectFileSymbols`'s switch. -/
def collectDeclSyms (l : Linter) : GoDecl → Linter
  | .genDecl specs => specs.foldl collectSpecSyms l
  | .funcDecl name _ => collectSym l name
  | .otherDecl => l

/-- `(*linter).collectFileSymbols`: iterate the file's top-level
declarations only. -/
def collectFileSymbols (l : Linter) (f : GoFile) : Linter :=
  f.decls.foldl collectDeclSyms l

/-- The per-file step of `(*linter).collectSymbols`: a file whose
resolved position has an empty filename is skipped (`continue`). -/
def collectFile (l : Linter) (f : GoFile) : Linter :=
  if f.filename = [] then l else collectFileSymbols l f

/-- `(*linter).collectSymbols`: all files of all loaded packages. -/
def collectSymbols (l : Linter) : Linter :=
  l.pkgs.foldl (fun acc pkg => pkg.files.foldl collectFile acc) l

/-- Does `sub` occur at the very start of `s`? -/
def leadsWith : GoString → GoString → Bool
  | [], _ => true
  | _ :: _, [] => false
  | a :: as, b :: bs => a == b && leadsWith as bs

/-- `strings.Contains(s, sub)`: `sub` occurs somewhere in `s`. -/
def goContains (s sub : GoString) : Bool :=
  match s with
  | [] => leadsWith sub []
  | _ :: rest => leadsWith sub s || goContains rest sub

example : goContains (asciiBytes "xx breaking references yy") (asciiBytes "breaking references") = true := by decide
example : goContains (asciiBytes "breaking reference") (asciiBytes "breaking references") = false := by decide

/-- The five diagnostic substrings `prettyError` matches, in source order. -/
def subBreak : GoString := asciiBytes "breaking references"
def subNoIdent : GoString := asciiBytes "no identifier at this position"
def subNotValid : GoString := asciiBytes "not a valid identifier"
def subConflict : GoString := asciiBytes "would conflict with this method"
def subIface : GoString := asciiBytes "no longer assignable to interface"

/-- The six messages `prettyError` can return, in source order. -/
def msgBreak : GoString := asciiBytes "would break package clients"
def msgNoIdent : GoString := asciiBytes "internal error: invalid position"
def msgNotValid : GoString := asciiBytes "internal error: invalid identifier"
def msgConflict : GoString := asciiBytes "symbols with unexported name form already exists"
def msgIface : GoString := asciiBytes "would breaks interface assignability"
def msgUnknown : GoString := asciiBytes "unknown error"

/-- `prettyError` from `unexport.go`: a `switch` of `strings.Contains`
tests in source order.  The result is the returned message together
with the lines printed to stdout: the default case runs
`fmt.Println("unknown error: ", s)`, i.e. prints the first operand, a
separating space, `s` verbatim, and a newline. -/
def prettyError (s : GoString) : GoString × List GoString :=
  if goContains s subBreak then (msgBreak, [])
  else if goContains s subNoIdent then (msgNoIdent, [])
  else if goContains s subNotValid then (msgNotValid, [])
  else if goContains s subConflict then (msgConflict, [])
  else if goContains s subIface then (msgIface, [])
  else (msgUnknown, [asciiBytes "unknown error: " ++ [32] ++ s ++ [10]])

/-- Outcome of one `exec.Command("gorename", ...).CombinedOutput()`
call: `ok` when `err == nil`, `fail` otherwise, each carrying the
combined output bytes. -/
inductive GoRes where
  | ok (out : GoString)
  | fail (out : GoString)
deriving DecidableEq, Repr

/-- The key `fmt.Sprintf("%s/%s", posn, exported)` of the success map,
where `posn` is the rendered `token.Position` given by `posStr`. -/
def renameKey (posStr : Nat → GoString) (pos : Nat) (exported : GoString) :
    GoString :=
  posStr pos ++ [47] ++ exported

/-- The recorded description `fmt.Sprintf("%s -> %s", exported, unexported)`. -/
def renameDesc (exported : GoString) : GoString :=
  exported ++ asciiBytes " -> " ++ toLowerFirst exported

/-- `(*linter).tryUnexport`: run the external `gorename` once on this
candidate (the black-box outcome is the oracle `gorename`, fed the
candidate's position and the new name).  On failure the linter state is
returned unchanged and the status is `"impossible: " + prettyError(out)`;
on success exactly the entry `key -> "exported -> unexported"` is added
to the success map and the status is `"success"`. -/
def tryUnexport (gorename : Nat → GoString → GoRes)
    (posStr : Nat → GoString) (l : Linter) (pos : Nat) (exported : GoString) :
    Linter × GoString :=
  let unexported := toLowerFirst exported
  let key := renameKey posStr pos exported
  match gorename pos unexported with
  | .fail out => (l, asciiBytes "impossible: " ++ (prettyError out).1)
  | .ok _ =>
    ({ l with success := fun k =>
        if k == key then some (renameDesc exported) else l.success k },
     asciiBytes "success")

/-- `(*linter).unexportSymbols`: for each collected symbol, in order, if
`ast.IsExported(sym.Name)` then attempt the rename.  The second
component records, in order, the symbols for which a rename attempt
(one `tryUnexport` call, hence one `gorename` invocation) was issued. -/
def unexportSymbols (gorename : Nat → GoString → GoRes)
    (posStr : Nat → GoString) (l : Linter) : Linter × List Ident :=
  l.symbols.foldl
    (fun acc sym =>
      if isExported sym.name then
        ((tryUnexport gorename posStr acc.1 sym.pos sym.name).1,
         acc.2 ++ [sym])
      else acc)
    (l, [])

/-! ### Helper lemmas -/

lemma utf8Encode_ne_nil (r : Nat) : utf8Encode r ≠ [] := by
  unfold utf8Encode
  split_ifs <;> simp

lemma utf8DecodeFirst_ascii (b : Nat) (rest : GoString) (h : b < 0x80) :
    utf8DecodeFirst (b :: rest) = (b, 1) := by
  simp [utf8DecodeFirst, h]

lemma utf8Encode_ascii (r : Nat) (h : r < 0x80) : utf8Encode r = [r] := by
  simp [utf8Encode, h]

lemma toLowerRune_ascii_lt (b : Nat) (h : b < 0x80) : toLowerRune b < 0x80 := by
  unfold toLowerRune
  split_ifs <;> omega

lemma toLowerFirst_ascii (b : Nat) (rest : GoString) (h : b < 0x80) :
    toLowerFirst (b :: rest) = toLowerRune b :: rest := by
  simp [toLowerFirst, utf8DecodeFirst_ascii b rest h,
    utf8Encode_ascii _ (toLowerRune_ascii_lt b h)]

/-- The retention predicate implicit in `collectSym`: the condition
under which a candidate ends up appended to `l.symbols`. -/
def keepSym (l : Linter) (sym : Ident) : Bool :=
  (l.unexport.isSome || mapLookup l.unexport sym.name) &&
    !mapLookup l.skip sym.name

lemma collectSym_eq (l : Linter) (s : Ident) :
    collectSym l s =
      { l with symbols := l.symbols ++ if keepSym l s then [s] else [] } := by
  unfold collectSym keepSym
  cases hu : (l.unexport.isSome || mapLookup l.unexport s.name) <;>
    cases hs : mapLookup l.skip s.name <;>
      simp [hu, hs]

lemma keepSym_symbols_irrel (l : Linter) (syms : List Ident) :
    keepSym { l with symbols := syms } = keepSym l := by
  funext s
  simp [keepSym]

/-- All identifiers a single `GenDecl` spec introduces, in order. -/
def specNodeIdents : GoSpecNode → List Ident
  | .valueSpec names => names
  | .typeSpec name => [name]
  | .otherSpec => []

/-- All identifiers a top-level declaration introduces, in order; a
function declaration contributes exactly its own name, never anything
from its body. -/
def declIdents : GoDecl → List Ident
  | .genDecl specs => (specs.map specNodeIdents).flatten
  | .funcDecl name _ => [name]
  | .otherDecl => []

/-- All top-level identifiers of a file, in declaration order. -/
def fileIdents (f : GoFile) : List Ident :=
  (f.decls.map declIdents).flatten

lemma foldl_collectSym (names : List Ident) (l : Linter) :
    names.foldl collectSym l =
      { l with symbols := l.symbols ++ names.filter (keepSym l) } := by
  induction names generalizing l with
  | nil => simp
  | cons n ns ih =>
    rw [List.foldl_cons, ih, collectSym_eq, List.filter_cons]
    cases hk : keepSym l n <;>
      simp [hk, keepSym_symbols_irrel]

lemma collectSpecSyms_eq (l : Linter) (sp : GoSpecNode) :
    collectSpecSyms l sp =
      { l with symbols := l.symbols ++ (specNodeIdents sp).filter (keepSym l) } := by
  cases sp with
  | valueSpec names => simpa [collectSpecSyms, specNodeIdents] using foldl_collectSym names l
  | typeSpec name =>
    rw [collectSpecSyms, collectSym_eq]
    cases hk : keepSym l name <;> simp [specNodeIdents, hk, List.filter_cons]
  | otherSpec => simp [collectSpecSyms, specNodeIdents]

lemma foldl_collectSpecSyms (specs : List GoSpecNode) (l : Linter) :
    specs.foldl collectSpecSyms l =
      { l with symbols := l.symbols ++
          ((specs.map specNodeIdents).flatten).filter (keepSym l) } := by
  induction specs generalizing l with
  | nil => simp
  | cons sp sps ih =>
    rw [List.foldl_cons, ih, collectSpecSyms_eq]
    simp [keepSym_symbols_irrel, List.filter_append]

lemma collectDeclSyms_eq (l : Linter) (d : GoDecl) :
    collectDeclSyms l d =
      { l with symbols := l.symbols ++ (declIdents d).filter (keepSym l) } := by
  cases d with
  | genDecl specs =>
    simpa [collectDeclSyms, declIdents] using foldl_collectSpecSyms specs l
  | funcDecl name body =>
    rw [collectDeclSyms, collectSym_eq]
    cases hk : keepSym l name <;> simp [declIdents, hk, List.filter_cons]
  | otherDecl => simp [collectDeclSyms, declIdents]

lemma collectFileSymbols_eq (l : Linter) (f : GoFile) :
    collectFileSymbols l f =
      { l with symbols := l.symbols ++ (fileIdents f).filter (keepSym l) } := by
  unfold collectFileSymbols fileIdents
  generalize f.decls = ds
  induction ds generalizing l with
  | nil => simp
  | cons d ds ih =>
    rw [List.foldl_cons, ih, collectDeclSyms_eq]
    simp [keepSym_symbols_irrel, List.filter_append]



lemma unexportSymbols_foldl_attempts (g : Nat → GoString → GoRes)
    (p : Nat → GoString) (syms : List Ident) (st : Linter) (tr : List Ident) :
    (syms.foldl
      (fun acc sym =>
        if isExported sym.name then
          ((tryUnexport g p acc.1 sym.pos sym.name).1, acc.2 ++ [sym])
        else acc)
      (st, tr)).2 = tr ++ syms.filter (fun s => isExported s.name) := by
  induction syms generalizing st tr with
  | nil => simp
  | cons s ss ih =>
    rw [List.foldl_cons]
    cases he : isExported s.name <;>
      simp [he, ih, List.filter_cons]

lemma unexportSymbols_attempts (g : Nat → GoString → GoRes)
    (p : Nat → GoString) (l : Linter) :
    (unexportSymbols g p l).2 = l.symbols.filter (fun s => isExported s.name) := by
  unfold unexportSymbols
  rw [unexportSymbols_foldl_attempts]
  simp

/-- The spec's closed error taxonomy (§4.5). -/
inductive ErrCategory where
  | wouldBreakClients
  | invalidPosition
  | invalidIdentifier
  | nameCollision
  | interfaceAssignabilityBroken
  | unknown
deriving DecidableEq, Repr

/-- Modelled from the spec: the classifier of §4.5 as the spec words it,
checking the five substrings in the stated priority order and assigning
exactly one category. -/
def specClassify (s : GoString) : ErrCategory :=
  if goContains s subBreak then .wouldBreakClients
  else if goContains s subNoIdent then .invalidPosition
  else if goContains s subNotValid then .invalidIdentifier
  else if goContains s subConflict then .nameCollision
  else if goContains s subIface then .interfaceAssignabilityBroken
  else .unknown

/-- Decode which category a `prettyError` result message denotes (the
six messages are pairwise distinct). -/
def categoryOfMsg (m : GoString) : ErrCategory :=
  if m == msgBreak then .wouldBreakClients
  else if m == msgNoIdent then .invalidPosition
  else if m == msgNotValid then .invalidIdentifier
  else if m == msgConflict then .nameCollision
  else if m == msgIface then .interfaceAssignabilityBroken
  else .unknown

lemma catBreak : categoryOfMsg msgBreak = ErrCategory.wouldBreakClients := by decide
lemma catNoIdent : categoryOfMsg msgNoIdent = ErrCategory.invalidPosition := by decide
lemma catNotValid : categoryOfMsg msgNotValid = ErrCategory.invalidIdentifier := by decide
lemma catConflict : categoryOfMsg msgConflict = ErrCategory.nameCollision := by decide
lemma catIface : categoryOfMsg msgIface = ErrCategory.interfaceAssignabilityBroken := by decide
lemma catUnknown : categoryOfMsg msgUnknown = ErrCategory.unknown := by decide

/-! ### Concrete inputs used by the claim theorems and witnesses -/

def fooId : Ident := ⟨asciiBytes "Foo", 7⟩

def barId : Ident := ⟨asciiBytes "bar", 3⟩

/-- Linter state after `init` and `parseFlags` with `-unexport=Bar`
and an empty `-skip` flag. -/
def lC1 : Linter := parseFlags (asciiBytes "Bar") (asciiBytes "") initLinter

/-- Linter state after `init` and `parseFlags` with an empty
`-unexport` flag and `-skip=Foo`. -/
def lC5 : Linter := parseFlags (asciiBytes "") (asciiBytes "Foo") initLinter

def gW : Nat → GoString → GoRes := fun _ _ => GoRes.ok []

def pW : Nat → GoString := fun _ => asciiBytes "f.go:1:1"

def lC6 : Linter := { initLinter with symbols := [barId] }

/-- Oracle refusing the candidate at position 1 with a
"breaking references" diagnostic and accepting everything else. -/
def gC7 : Nat → GoString → GoRes := fun pos _ =>
  if pos = 1 then GoRes.fail (asciiBytes "breaking references") else GoRes.ok []

def lC7 : Linter :=
  { initLinter with symbols := [⟨asciiBytes "Baz", 1⟩, ⟨asciiBytes "Foo", 2⟩] }

def sBoth : GoString :=
  asciiBytes "renaming would be breaking references; type no longer assignable to interface I"

def sOdd : GoString := asciiBytes "flag provided but not defined"

def fEmptyName : GoFile := ⟨[], [GoDecl.funcDecl fooId []]⟩

def fC9 : GoFile :=
  ⟨asciiBytes "a.go",
   [GoDecl.genDecl [GoSpecNode.valueSpec [fooId]], GoDecl.funcDecl barId []]⟩

/-! ### Claim theorems -/

/-- C1: the claim says that with unexport set `{"Bar"}` and empty skip
set a candidate is retained iff its name is `"Bar"`.  The code's guard
`l.unexport != nil || l.unexport[sym.Name]` is always true (the map is
allocated in `init`), so the candidate `Foo` — not in the unexport set
and not skipped — is still retained: the code contradicts its own
`-unexport` flag documentation. -/
theorem c1_code_eval :
    mapLookup lC1.unexport (asciiBytes "Foo") = false ∧
    mapLookup lC1.unexport (asciiBytes "Bar") = true ∧
    mapLookup lC1.skip (asciiBytes "Foo") = false ∧
    (collectSym lC1 fooId).symbols = [fooId] := by
  refine ⟨by decide, by decide, by decide, ?_⟩
  decide

/-- C2: the claim says the transform lower-cases exactly the first
Unicode code point and leaves the remainder (after that code point)
unchanged, including multi-byte first code points.  On `"Ā"` (bytes
`C4 80`, one two-byte code point U+0100) the code slices `s[1:]`,
keeping the stray continuation byte `80`, so it returns `C4 81 80`
instead of the spec's `C4 81` (the bytes of `"ā"`). -/
theorem c2_code_eval :
    toLowerFirst [0xC4, 0x80] = [0xC4, 0x81, 0x80] ∧
    specLowerFirst [0xC4, 0x80] = [0xC4, 0x81] ∧
    toLowerFirst [0xC4, 0x80] ≠ specLowerFirst [0xC4, 0x80] := by
  decide

/-- C3 counterexample: applied to the empty name the transform does NOT
fail — `toLowerFirst` has no error path at all and silently returns the
empty string. -/
theorem c3_counterexample : toLowerFirst [] = [] := rfl

/-- C3 amended: on the empty name the transform silently returns the
empty string (there is no `InvalidNameError` anywhere in the code); on
every non-empty name it returns a non-empty string. -/
theorem c3_amended_total :
    toLowerFirst [] = [] ∧ ∀ s : GoString, s ≠ [] → toLowerFirst s ≠ [] := by
  refine ⟨rfl, ?_⟩
  intro s hs
  cases s with
  | nil => exact absurd rfl hs
  | cons b rest => simp [toLowerFirst, utf8Encode_ne_nil]

theorem c3_amended_total_witness : toLowerFirst (asciiBytes "A") ≠ [] :=
  c3_amended_total.2 (asciiBytes "A") (by decide)

/-- C4: for every diagnostic text, the classifier matches the spec's
priority-ordered classifier (breaking references, invalid position,
invalid identifier, naming collision, interface assignability, else
unknown), and in particular a text containing `"breaking references"`
is classified `WouldBreakClients` no matter what else it contains. -/
theorem c4_priority_order (s : GoString) :
    categoryOfMsg (prettyError s).1 = specClassify s ∧
    (goContains s subBreak = true →
      categoryOfMsg (prettyError s).1 = ErrCategory.wouldBreakClients) := by
  unfold prettyError specClassify
  split_ifs with h1 h2 h3 h4 h5 <;>
    simp_all [catBreak, catNoIdent, catNotValid, catConflict, catIface, catUnknown]

theorem c4_priority_order_witness :
    categoryOfMsg (prettyError sBoth).1 = ErrCategory.wouldBreakClients ∧
    goContains sBoth subIface = true :=
  ⟨(c4_priority_order sBoth).2 (by decide), by decide⟩

/-- C5: a candidate whose name is in the skip set is never added to the
symbol list (`collectSym` leaves the state unchanged), regardless of the
unexport set, and hence — unless it is already among the collected
symbols — is never attempted for rename. -/
theorem c5_skip_wins (l : Linter) (sym : Ident)
    (h : mapLookup l.skip sym.name = true) :
    collectSym l sym = l ∧
    ∀ (g : Nat → GoString → GoRes) (p : Nat → GoString),
      sym ∉ l.symbols → sym ∉ (unexportSymbols g p (collectSym l sym)).2 := by
  have hc : collectSym l sym = l := by
    unfold collectSym
    rw [h]
    simp
  refine ⟨hc, ?_⟩
  intro g p hmem hin
  rw [hc, unexportSymbols_attempts] at hin
  exact hmem (List.mem_filter.mp hin).1

theorem c5_skip_wins_witness :
    collectSym lC5 fooId = lC5 ∧
    fooId ∉ (unexportSymbols gW pW (collectSym lC5 fooId)).2 := by
  have h := c5_skip_wins lC5 fooId (by decide)
  exact ⟨h.1, h.2 gW pW (by decide)⟩

/-- C6: the invoker only issues rename attempts for symbols whose name
is exported by first-letter casing; a symbol whose name does not begin
with an upper-case letter is never attempted. -/
theorem c6_only_exported (g : Nat → GoString → GoRes) (p : Nat → GoString)
    (l : Linter) (sym : Ident) (h : isExported sym.name = false) :
    sym ∉ (unexportSymbols g p l).2 := by
  rw [unexportSymbols_attempts]
  intro hin
  have hp := (List.mem_filter.mp hin).2
  rw [h] at hp
  exact Bool.noConfusion hp

theorem c6_only_exported_witness :
    barId ∉ (unexportSymbols gW pW lC6).2 :=
  c6_only_exported gW pW lC6 barId (by decide)

/-- C7: a failed rename attempt leaves the linter state (in particular
the success map) unchanged and its candidate gets no entry; a successful
attempt records exactly the one entry `key ↦ "name -> toLowerFirst name"`
and changes nothing else; and the attempt list is exactly the exported
collected symbols in order, independent of the oracle's outcomes — each
candidate is attempted exactly once and processing continues after a
failure. -/
theorem c7_attempt_semantics (g : Nat → GoString → GoRes) (p : Nat → GoString) :
    (∀ (l : Linter) (pos : Nat) (name out : GoString),
        g pos (toLowerFirst name) = GoRes.fail out →
        (tryUnexport g p l pos name).1 = l ∧
        (tryUnexport g p l pos name).2 =
          asciiBytes "impossible: " ++ (prettyError out).1) ∧
    (∀ (l : Linter) (pos : Nat) (name out : GoString),
        g pos (toLowerFirst name) = GoRes.ok out →
        (tryUnexport g p l pos name).1.symbols = l.symbols ∧
        (tryUnexport g p l pos name).1.success (renameKey p pos name) =
          some (renameDesc name) ∧
        ∀ k, k ≠ renameKey p pos name →
          (tryUnexport g p l pos name).1.success k = l.success k) ∧
    (∀ l : Linter, (unexportSymbols g p l).2 =
        l.symbols.filter (fun s => isExported s.name)) := by
  refine ⟨?_, ?_, unexportSymbols_attempts g p⟩
  · intro l pos name out hg
    simp [tryUnexport, hg]
  · intro l pos name out hg
    refine ⟨by simp [tryUnexport, hg], by simp [tryUnexport, hg], ?_⟩
    intro k hk
    simp [tryUnexport, hg, hk]

theorem c7_attempt_semantics_witness :
    (tryUnexport gC7 pW initLinter 1 (asciiBytes "Baz")).1 = initLinter ∧
    (tryUnexport gC7 pW initLinter 2 (asciiBytes "Foo")).1.success
        (renameKey pW 2 (asciiBytes "Foo")) = some (renameDesc (asciiBytes "Foo")) ∧
    (unexportSymbols gC7 pW lC7).2 = lC7.symbols := by
  have h := c7_attempt_semantics gC7 pW
  refine ⟨(h.1 initLinter 1 (asciiBytes "Baz")
            (asciiBytes "breaking references") (by decide)).1,
          (h.2.1 initLinter 2 (asciiBytes "Foo") [] (by decide)).2.1, ?_⟩
  rw [h.2.2 lC7]
  decide

/-- C8: a diagnostic text matching none of the five known substrings is
classified `Unknown` and the raw text is printed verbatim (embedded
as-is in the single printed line), never mapped to another category. -/
theorem c8_unknown_verbatim (s : GoString)
    (h1 : goContains s subBreak = false) (h2 : goContains s subNoIdent = false)
    (h3 : goContains s subNotValid = false) (h4 : goContains s subConflict = false)
    (h5 : goContains s subIface = false) :
    categoryOfMsg (prettyError s).1 = ErrCategory.unknown ∧
    (prettyError s).2 = [asciiBytes "unknown error: " ++ [32] ++ s ++ [10]] := by
  simp [prettyError, h1, h2, h3, h4, h5, catUnknown]

theorem c8_unknown_verbatim_witness :
    categoryOfMsg (prettyError sOdd).1 = ErrCategory.unknown ∧
    (prettyError sOdd).2 = [asciiBytes "unknown error: " ++ [32] ++ sOdd ++ [10]] :=
  c8_unknown_verbatim sOdd (by decide) (by decide) (by decide) (by decide)
    (by decide)

/-- C9: the collector visits only a file's top-level declarations — a
function declaration contributes its name regardless of what is nested
in its body — and a file whose resolved position filename is empty is
skipped entirely; the symbols collected from a file are exactly its
top-level identifiers passing the retention filter, in order. -/
theorem c9_top_level_only (l : Linter) (f : GoFile) (name : Ident)
    (body body' : List GoDecl) :
    (f.filename = [] → collectFile l f = l) ∧
    collectDeclSyms l (GoDecl.funcDecl name body) =
      collectDeclSyms l (GoDecl.funcDecl name body') ∧
    (collectFileSymbols l f).symbols =
      l.symbols ++ (fileIdents f).filter (keepSym l) := by
  refine ⟨?_, rfl, ?_⟩
  · intro h
    simp [collectFile, h]
  · rw [collectFileSymbols_eq]

theorem c9_top_level_only_witness :
    collectFile initLinter fEmptyName = initLinter ∧
    collectDeclSyms initLinter (GoDecl.funcDecl fooId [GoDecl.otherDecl]) =
      collectDeclSyms initLinter (GoDecl.funcDecl fooId []) ∧
    (collectFileSymbols initLinter fC9).symbols =
      initLinter.symbols ++ (fileIdents fC9).filter (keepSym initLinter) := by
  have h := c9_top_level_only initLinter fC9 fooId [GoDecl.otherDecl] []
  exact ⟨(c9_top_level_only initLinter fEmptyName fooId [] []).1 rfl,
    h.2.1, h.2.2⟩

/-- C10: on any string whose first code point is an ASCII letter (a
single leading byte in `A`-`Z` or `a`-`z`), `toLowerFirst` is
idempotent. -/
theorem c10_idempotent_ascii (b : Nat) (rest : GoString)
    (hb : (0x41 ≤ b ∧ b ≤ 0x5A) ∨ (0x61 ≤ b ∧ b ≤ 0x7A)) :
    toLowerFirst (toLowerFirst (b :: rest)) = toLowerFirst (b :: rest) := by
  have h80 : b < 0x80 := by omega
  have hkey : toLowerRune (toLowerRune b) = toLowerRune b := by
    unfold toLowerRune
    split_ifs <;> omega
  rw [toLowerFirst_ascii b rest h80,
    toLowerFirst_ascii (toLowerRune b) rest (toLowerRune_ascii_lt b h80), hkey]

theorem c10_idempotent_ascii_witness :
    toLowerFirst (toLowerFirst (70 :: [111, 111])) =
      toLowerFirst (70 :: [111, 111]) :=
  c10_idempotent_ascii 70 [111, 111] (by decide)
